import Mathlib

/-!
Formalisation of the Almaty/Astana daily-temperature comparison pipeline
(src/main.py): the record normaliser (lines 89-110), the per-city daily
series builder `make_series` (lines 113-120) and the seasonal comfort
decision (lines 126-145).

Modelling conventions:
* calendar dates are day ordinals (`ℕ`); one step = one calendar day, so the
  daily reindex `asfreq("D")` becomes a contiguous range of naturals;
* temperatures are exact rationals (`ℚ`), standing in for the floats of the
  source; every claim settled here is about comparisons and linear blends;
* the tolerant mixed-format date parser (`pd.to_datetime(..., format="mixed",
  dayfirst=True)`) and the numeric parser (`pd.to_numeric`) are parameters of
  the normaliser: the claims hold for every parse function, and a concrete
  `simpleDateParse` drives witnesses and counterexamples;
* fallible steps return `Except`: the `raise ValueError` for an absent city
  and the pandas reindex failure on duplicate date labels become `BuildError`,
  the failed `.loc[last_date]` lookup of the evaluator becomes `AlignError`.
-/

deriving instance DecidableEq for Except

/-- A raw input row (columns `date`, `city`, `temperature`); the date cell
may be absent (`None`/`NaN` in the frame). -/
structure RawRow where
  date : Option String
  city : String
  temperature : String
  deriving Repr, DecidableEq

/-- A fully validated record: parsed calendar date (day ordinal), canonical
city name and finite temperature (main.py line 110, after `dropna`). -/
structure CleanRecord where
  date : ℕ
  city : String
  temp : ℚ
  deriving Repr, DecidableEq

/-- The city alias table `CITY_ALIAS` of main.py lines 23-26. -/
def CITY_ALIAS : List (String × String) :=
  [("Астана", "Astana"), ("Нур-Султан", "Astana"),
   ("Алматы", "Almaty"), ("Алма-Ата", "Almaty")]

/-- `df["city"].replace(CITY_ALIAS)`: unmapped names pass through. -/
def resolveAlias (c : String) : String := (CITY_ALIAS.lookup c).getD c

/-- Python's `str.strip()`: drop whitespace from both ends. -/
def pyStrip (s : String) : String :=
  ⟨List.reverse
    ((List.reverse (s.data.dropWhile Char.isWhitespace)).dropWhile
      Char.isWhitespace)⟩

/-- main.py lines 94-95: strip whitespace from the date and city cells and
resolve city aliases. -/
def stripRow (r : RawRow) : RawRow :=
  ⟨r.date.map pyStrip, resolveAlias (pyStrip r.city), r.temperature⟩

/-- The sentinel tokens of main.py line 97 (`None` is modelled by the date
cell being absent). -/
def bad_tokens : List String := ["", "...", "—", "-", "NaN", "nan"]

/-- main.py line 98: a row is discarded before date parsing when its
(stripped) date cell is absent or equals one of the `bad_tokens`. -/
def sentinelBad (d : Option String) : Bool :=
  match d with
  | none => true
  | some s => bad_tokens.contains s

/-- The rows that survive the sentinel filter of line 98 (dates already
stripped by line 94). -/
def afterSentinel (rows : List RawRow) : List RawRow :=
  (rows.map stripRow).filter (fun r => !sentinelBad r.date)

/-- main.py lines 100-104: the diagnostic listing of unparseable date
strings — rows that passed the sentinel filter but whose date the parser
rejects; only the first 10 are surfaced. Advisory only: the pipeline
continues on the remaining rows. -/
def badDateDiagnostics (parseDate : String → Option ℕ) (rows : List RawRow) :
    List String :=
  (((afterSentinel rows).filter (fun r => (r.date.bind parseDate).isNone)).map
    (fun r => r.date.getD "")).take 10

/-- main.py lines 100-110: parse dates and temperatures of the surviving
rows and drop any row still missing one of them (`dropna`). -/
def normalizeRows (parseDate : String → Option ℕ)
    (parseTemp : String → Option ℚ) (rows : List RawRow) : List CleanRecord :=
  (afterSentinel rows).filterMap (fun r =>
    match r.date.bind parseDate, parseTemp r.temperature with
    | some d, some t => some ⟨d, r.city, t⟩
    | _, _ => none)

/-- A concrete stand-in date parser (all-digit strings only), used to
instantiate the parser-generic theorems on concrete inputs; it rejects
non-digit strings such as "NAN" exactly as the tolerant parser of the
source turns them into `NaT`. -/
def simpleDateParse (s : String) : Option ℕ :=
  match s.data with
  | [] => none
  | cs => cs.foldl
      (fun acc c => acc.bind (fun n =>
        if c.isDigit then some (n * 10 + (c.toNat - 48)) else none))
      (some 0)

/-- Errors of the series builder: `dataAbsent` is the explicit
`raise ValueError(f"Нет данных для города: {city}")` of line 116;
`duplicateDates` is the `ValueError` pandas raises in `asfreq`/`reindex`
when the date index carries duplicate labels. Both carry the city. -/
inductive BuildError where
  | dataAbsent (city : String)
  | duplicateDates (city : String)
  deriving Repr, DecidableEq

/-- A daily series: value (if known) for each consecutive day starting at
`start`; `values.getD i none` is the entry for day `start + i`. -/
structure DailySeries where
  start : ℕ
  values : List (Option ℚ)
  deriving Repr, DecidableEq

/-- Minimum of a list of day ordinals (0 on the empty list, which the
builder never queries). -/
def listMin : List ℕ → ℕ
  | [] => 0
  | x :: xs => xs.foldl min x

/-- Maximum of a list of day ordinals. -/
def listMax : List ℕ → ℕ
  | [] => 0
  | x :: xs => xs.foldl max x

/-- The dates column of a record set. -/
def datesOf (recs : List CleanRecord) : List ℕ := recs.map (fun r => r.date)

/-- The rows of the table belonging to one city (line 114). -/
def partOf (table : List CleanRecord) (city : String) : List CleanRecord :=
  table.filter (fun r => r.city == city)

/-- The value the date-indexed series holds at day `d`: the temperature of
the (unique, once duplicate dates are excluded) record dated `d`. -/
def valueAtDate (recs : List CleanRecord) (d : ℕ) : Option ℚ :=
  ((recs.filter (fun r => r.date == d)).head?).map (fun r => r.temp)

/-- `sort_index().asfreq("D")` (lines 118-119): reindex the records onto the
complete daily calendar from their minimum to their maximum date; days
without an observation are unset (`NaN`). -/
def asfreqD (recs : List CleanRecord) : List (Option ℚ) :=
  (List.range (listMax (datesOf recs) - listMin (datesOf recs) + 1)).map
    (fun i => valueAtDate recs (listMin (datesOf recs) + i))

/-- The latest known entry strictly before index `i` (position and value). -/
def lastKnownBefore (xs : List (Option ℚ)) : ℕ → Option (ℕ × ℚ)
  | 0 => none
  | i + 1 =>
    match xs.getD i none with
    | some y => some (i, y)
    | none => lastKnownBefore xs i

/-- Scan a suffix (whose first element sits at absolute index `i`) for its
earliest known entry. -/
def firstKnownAux : List (Option ℚ) → ℕ → Option (ℕ × ℚ)
  | [], _ => none
  | some y :: _, i => some (i, y)
  | none :: rest, i => firstKnownAux rest (i + 1)

/-- The earliest known entry at index `i` or later (position and value). -/
def firstKnownFrom (xs : List (Option ℚ)) (i : ℕ) : Option (ℕ × ℚ) :=
  firstKnownAux (xs.drop i) i

/-- `.interpolate("time")` (line 120) on the daily reindexed series: an
unset entry with a known neighbour on each side becomes the linear blend of
the nearest known values, weighted by elapsed days (on the daily index the
index distance is exactly the elapsed time in days). Entries with no known
value on one side stay unset — unreachable through `make_series`, whose
reindexed range starts and ends at observed days. -/
def interpolateTime (xs : List (Option ℚ)) : List (Option ℚ) :=
  (List.range xs.length).map fun i =>
    match xs.getD i none with
    | some y => some y
    | none =>
      match lastKnownBefore xs i, firstKnownFrom xs (i + 1) with
      | some (j, yj), some (k, yk) =>
        some (yj + (yk - yj) * (((i : ℚ) - (j : ℚ)) / ((k : ℚ) - (j : ℚ))))
      | _, _ => none

/-- main.py lines 113-120, `make_series`: select the city's rows, fail when
there are none, reindex to the full daily range and interpolate. A date
index with duplicate labels makes the pandas reindex raise, modelled by
`BuildError.duplicateDates`. -/
def make_series (table : List CleanRecord) (city : String) :
    Except BuildError DailySeries :=
  if (partOf table city).isEmpty then .error (.dataAbsent city)
  else if (datesOf (partOf table city)).Nodup then
    .ok ⟨listMin (datesOf (partOf table city)),
         interpolateTime (asfreqD (partOf table city))⟩
  else .error (.duplicateDates city)

/-- Index of the last known entry of a value list (`dropna().index.max()`). -/
def lastKnownIdx (xs : List (Option ℚ)) : Option ℕ :=
  (lastKnownBefore xs xs.length).map (fun p => p.1)

/-- The series' last known (non-missing) date. -/
def lastKnownDate (s : DailySeries) : Option ℕ :=
  (lastKnownIdx s.values).map (fun i => s.start + i)

/-- `s.loc[d]`: the series' entry at day `d`, `none` outside its range or on
an unset day. -/
def getAt (s : DailySeries) (d : ℕ) : Option ℚ :=
  if s.start ≤ d then s.values.getD (d - s.start) none else none

/-- main.py line 131: the comparison date is the earlier of the two last
known dates. -/
def comparisonDate (sa sb : DailySeries) : Option ℕ :=
  match lastKnownDate sa, lastKnownDate sb with
  | some la, some lb => some (min la lb)
  | _, _ => none

/-- main.py lines 126-129, `season_by_month`. -/
def season_by_month (m : ℕ) : String :=
  if m = 12 ∨ m = 1 ∨ m = 2 then "winter"
  else if m = 6 ∨ m = 7 ∨ m = 8 then "summer"
  else "shoulder"

/-- The fixed shoulder-season target (line 143). -/
def targetTemp : ℚ := 20

/-- The decision block of main.py lines 136-145. -/
def decideWinner (season : String) (t_ast t_alm : ℚ) : String :=
  if season = "winter" then
    if t_ast > t_alm then "Astana" else "Almaty"
  else if season = "summer" then
    if t_ast < t_alm then "Astana" else "Almaty"
  else
    if abs (t_ast - targetTemp) ≤ abs (t_alm - targetTemp) then "Astana"
    else "Almaty"

/-- Failure of the evaluator's `.loc[last_date]` lookup: one of the series
holds no value at the comparison date (the `KeyError` abort of lines
132-133, the spec's AlignmentError). -/
inductive AlignError where
  | noCommonDate
  deriving Repr, DecidableEq

/-- The comfort decision record printed at line 147. -/
structure ComfortDecision where
  evalDate : ℕ
  t_ast : ℚ
  t_alm : ℚ
  season : String
  winner : String
  deriving Repr, DecidableEq

/-- main.py lines 131-145: pick the comparison date, read both series
there, classify the season of the date's calendar month (`monthOf` maps a
day ordinal to its month, kept abstract) and decide the winner. -/
def evaluateComfort (monthOf : ℕ → ℕ) (s_ast s_alm : DailySeries) :
    Except AlignError ComfortDecision :=
  match comparisonDate s_ast s_alm with
  | some d =>
    match getAt s_ast d, getAt s_alm d with
    | some ta, some tb =>
      .ok ⟨d, ta, tb, season_by_month (monthOf d),
           decideWinner (season_by_month (monthOf d)) ta tb⟩
    | _, _ => .error .noCommonDate
  | none => .error .noCommonDate

/-! ### Supporting lemmas: list minima and maxima -/

theorem foldl_min_le_init (xs : List ℕ) (a : ℕ) : xs.foldl min a ≤ a := by
  induction xs generalizing a with
  | nil => simp
  | cons x xs ih =>
    simpa using le_trans (ih (min a x)) (min_le_left a x)

theorem foldl_min_le_of_mem {xs : List ℕ} {x : ℕ} (hx : x ∈ xs) (a : ℕ) :
    xs.foldl min a ≤ x := by
  induction xs generalizing a with
  | nil => cases hx
  | cons y ys ih =>
    simp only [List.foldl_cons]
    rcases List.mem_cons.mp hx with h | h
    · subst h
      exact le_trans (foldl_min_le_init ys (min a x)) (min_le_right a x)
    · exact ih h (min a y)

theorem foldl_min_mem (xs : List ℕ) (a : ℕ) :
    xs.foldl min a = a ∨ xs.foldl min a ∈ xs := by
  induction xs generalizing a with
  | nil => left; rfl
  | cons x xs ih =>
    simp only [List.foldl_cons]
    rcases ih (min a x) with h | h
    · rcases min_choice a x with h1 | h1
      · left; rw [h, h1]
      · right; rw [h, h1]; exact List.mem_cons_self x xs
    · right; exact List.mem_cons_of_mem x h

theorem le_foldl_max_init (xs : List ℕ) (a : ℕ) : a ≤ xs.foldl max a := by
  induction xs generalizing a with
  | nil => simp
  | cons x xs ih =>
    simpa using le_trans (le_max_left a x) (ih (max a x))

theorem le_foldl_max_of_mem {xs : List ℕ} {x : ℕ} (hx : x ∈ xs) (a : ℕ) :
    x ≤ xs.foldl max a := by
  induction xs generalizing a with
  | nil => cases hx
  | cons y ys ih =>
    simp only [List.foldl_cons]
    rcases List.mem_cons.mp hx with h | h
    · subst h
      exact le_trans (le_max_right a x) (le_foldl_max_init ys (max a x))
    · exact ih h (max a y)

theorem foldl_max_mem (xs : List ℕ) (a : ℕ) :
    xs.foldl max a = a ∨ xs.foldl max a ∈ xs := by
  induction xs generalizing a with
  | nil => left; rfl
  | cons x xs ih =>
    simp only [List.foldl_cons]
    rcases ih (max a x) with h | h
    · rcases max_choice a x with h1 | h1
      · left; rw [h, h1]
      · right; rw [h, h1]; exact List.mem_cons_self x xs
    · right; exact List.mem_cons_of_mem x h

theorem listMin_le_of_mem {l : List ℕ} {x : ℕ} (hx : x ∈ l) : listMin l ≤ x := by
  cases l with
  | nil => cases hx
  | cons y ys =>
    rcases List.mem_cons.mp hx with h | h
    · subst h; exact foldl_min_le_init ys x
    · exact foldl_min_le_of_mem h y

theorem listMin_mem {l : List ℕ} (h : l ≠ []) : listMin l ∈ l := by
  cases l with
  | nil => exact absurd rfl h
  | cons y ys =>
    rcases foldl_min_mem ys y with h1 | h1
    · rw [listMin, h1]; exact List.mem_cons_self y ys
    · exact List.mem_cons_of_mem y h1

theorem le_listMax_of_mem {l : List ℕ} {x : ℕ} (hx : x ∈ l) : x ≤ listMax l := by
  cases l with
  | nil => cases hx
  | cons y ys =>
    rcases List.mem_cons.mp hx with h | h
    · subst h; exact le_foldl_max_init ys x
    · exact le_foldl_max_of_mem h y

theorem listMax_mem {l : List ℕ} (h : l ≠ []) : listMax l ∈ l := by
  cases l with
  | nil => exact absurd rfl h
  | cons y ys =>
    rcases foldl_max_mem ys y with h1 | h1
    · rw [listMax, h1]; exact List.mem_cons_self y ys
    · exact List.mem_cons_of_mem y h1

theorem listMin_le_listMax {l : List ℕ} (h : l ≠ []) : listMin l ≤ listMax l :=
  listMin_le_of_mem (listMax_mem h)

/-! ### Supporting lemmas: list indexing -/

theorem getD_map_range {α : Type} (f : ℕ → α) {n i : ℕ} (h : i < n) (d : α) :
    ((List.range n).map f).getD i d = f i := by
  rw [List.getD_eq_getElem?_getD, List.getElem?_map, List.getElem?_range h]
  rfl

/-! ### Supporting lemmas: the reindexed daily value list -/

theorem valueAtDate_eq_some {recs : List CleanRecord} {d : ℕ} {t : ℚ}
    (h : valueAtDate recs d = some t) :
    ∃ r, r ∈ recs ∧ r.date = d ∧ r.temp = t := by
  unfold valueAtDate at h
  cases hf : recs.filter (fun r => r.date == d) with
  | nil => rw [hf] at h; simp at h
  | cons r rest =>
    rw [hf] at h
    simp only [List.head?_cons, Option.map_some', Option.some.injEq] at h
    have hr : r ∈ recs.filter (fun r => r.date == d) := by
      rw [hf]; exact List.mem_cons_self r rest
    have hmem := List.mem_filter.mp hr
    exact ⟨r, hmem.1, by simpa using hmem.2, h⟩

theorem valueAtDate_isSome_of_mem {recs : List CleanRecord} {d : ℕ}
    (h : d ∈ datesOf recs) : (valueAtDate recs d).isSome := by
  rcases List.mem_map.mp h with ⟨r, hr, hd⟩
  have hmem : r ∈ recs.filter (fun r => r.date == d) :=
    List.mem_filter.mpr ⟨hr, by simp [hd]⟩
  unfold valueAtDate
  cases hf : recs.filter (fun r => r.date == d) with
  | nil => rw [hf] at hmem; cases hmem
  | cons a rest => simp

theorem asfreqD_length (recs : List CleanRecord) :
    (asfreqD recs).length =
      listMax (datesOf recs) - listMin (datesOf recs) + 1 := by
  simp [asfreqD]

theorem asfreqD_getD {recs : List CleanRecord} {i : ℕ}
    (h : i < listMax (datesOf recs) - listMin (datesOf recs) + 1) :
    (asfreqD recs).getD i none = valueAtDate recs (listMin (datesOf recs) + i) :=
  getD_map_range _ h _

theorem datesOf_ne_nil {recs : List CleanRecord} (h : recs ≠ []) :
    datesOf recs ≠ [] := by
  cases recs with
  | nil => exact absurd rfl h
  | cons r rest => simp [datesOf]

theorem asfreqD_first_isSome {recs : List CleanRecord} (h : recs ≠ []) :
    ((asfreqD recs).getD 0 none).isSome := by
  rw [asfreqD_getD (by omega)]
  simpa using valueAtDate_isSome_of_mem (listMin_mem (datesOf_ne_nil h))

theorem asfreqD_last_isSome {recs : List CleanRecord} (h : recs ≠ []) :
    ((asfreqD recs).getD ((asfreqD recs).length - 1) none).isSome := by
  have hmm := listMin_le_listMax (datesOf_ne_nil h)
  rw [asfreqD_length, asfreqD_getD (by omega)]
  have he : listMin (datesOf recs) +
      (listMax (datesOf recs) - listMin (datesOf recs) + 1 - 1) =
      listMax (datesOf recs) := by omega
  rw [he]
  exact valueAtDate_isSome_of_mem (listMax_mem (datesOf_ne_nil h))

/-! ### Supporting lemmas: the neighbour scans -/

theorem lastKnownBefore_spec {xs : List (Option ℚ)} :
    ∀ {i j : ℕ} {y : ℚ}, lastKnownBefore xs i = some (j, y) →
      j < i ∧ xs.getD j none = some y := by
  intro i
  induction i with
  | zero => intro j y h; simp [lastKnownBefore] at h
  | succ i ih =>
    intro j y h
    cases hx : xs.getD i none with
    | some z =>
      rw [lastKnownBefore, hx] at h
      simp only [Option.some.injEq, Prod.mk.injEq] at h
      obtain ⟨hj, hy⟩ := h
      subst hj; subst hy
      exact ⟨Nat.lt_succ_self i, hx⟩
    | none =>
      rw [lastKnownBefore, hx] at h
      obtain ⟨hj, hv⟩ := ih h
      exact ⟨Nat.lt_succ_of_lt hj, hv⟩

theorem lastKnownBefore_isSome {xs : List (Option ℚ)} :
    ∀ {i : ℕ}, (∃ j, j < i ∧ (xs.getD j none).isSome) →
      (lastKnownBefore xs i).isSome := by
  intro i
  induction i with
  | zero => rintro ⟨j, hj, _⟩; omega
  | succ i ih =>
    rintro ⟨j, hj, hs⟩
    cases hx : xs.getD i none with
    | some z => rw [lastKnownBefore, hx]; rfl
    | none =>
      rw [lastKnownBefore, hx]
      apply ih
      refine ⟨j, ?_, hs⟩
      rcases Nat.lt_succ_iff_lt_or_eq.mp hj with h | h
      · exact h
      · subst h; rw [hx] at hs; cases hs

theorem firstKnownAux_spec :
    ∀ (l : List (Option ℚ)) (i k : ℕ) (y : ℚ),
      firstKnownAux l i = some (k, y) →
        i ≤ k ∧ k - i < l.length ∧ l.getD (k - i) none = some y := by
  intro l
  induction l with
  | nil => intro i k y h; simp [firstKnownAux] at h
  | cons o rest ih =>
    intro i k y h
    cases o with
    | some z =>
      simp only [firstKnownAux, Option.some.injEq, Prod.mk.injEq] at h
      obtain ⟨hk, hy⟩ := h
      subst hk; subst hy
      exact ⟨le_refl i, by simp, by simp⟩
    | none =>
      simp only [firstKnownAux] at h
      obtain ⟨h1, h2, h3⟩ := ih (i + 1) k y h
      refine ⟨by omega, by simp; omega, ?_⟩
      have he : k - i = (k - (i + 1)) + 1 := by omega
      rw [he]
      simpa using h3

theorem firstKnownAux_isSome :
    ∀ (l : List (Option ℚ)) (i : ℕ),
      (∃ m, m < l.length ∧ (l.getD m none).isSome) →
        (firstKnownAux l i).isSome := by
  intro l
  induction l with
  | nil => rintro i ⟨m, hm, _⟩; simp at hm
  | cons o rest ih =>
    rintro i ⟨m, hm, hs⟩
    cases o with
    | some z => simp [firstKnownAux]
    | none =>
      simp only [firstKnownAux]
      apply ih
      cases m with
      | zero => simp [List.getD] at hs
      | succ m => exact ⟨m, by simpa using hm, by simpa using hs⟩

theorem getD_drop (xs : List (Option ℚ)) (i m : ℕ) :
    (xs.drop i).getD m none = xs.getD (i + m) none := by
  rw [List.getD_eq_getElem?_getD, List.getD_eq_getElem?_getD, List.getElem?_drop]

theorem firstKnownFrom_spec {xs : List (Option ℚ)} {i k : ℕ} {y : ℚ}
    (h : firstKnownFrom xs i = some (k, y)) :
    i ≤ k ∧ k < xs.length ∧ xs.getD k none = some y := by
  obtain ⟨h1, h2, h3⟩ := firstKnownAux_spec (xs.drop i) i k y h
  rw [List.length_drop] at h2
  rw [getD_drop] at h3
  have he : i + (k - i) = k := by omega
  rw [he] at h3
  exact ⟨h1, by omega, h3⟩

theorem firstKnownFrom_isSome {xs : List (Option ℚ)} {i k : ℕ} (hk : i ≤ k)
    (hlen : k < xs.length) (hs : (xs.getD k none).isSome) :
    (firstKnownFrom xs i).isSome := by
  apply firstKnownAux_isSome
  refine ⟨k - i, ?_, ?_⟩
  · rw [List.length_drop]; omega
  · rw [getD_drop]
    have he : i + (k - i) = k := by omega
    rwa [he]

/-! ### Supporting lemmas: interpolation -/

theorem interpolateTime_length (xs : List (Option ℚ)) :
    (interpolateTime xs).length = xs.length := by
  simp [interpolateTime]

theorem interpolateTime_getD {xs : List (Option ℚ)} {i : ℕ} (h : i < xs.length) :
    (interpolateTime xs).getD i none =
      match xs.getD i none with
      | some y => some y
      | none =>
        match lastKnownBefore xs i, firstKnownFrom xs (i + 1) with
        | some (j, yj), some (k, yk) =>
          some (yj + (yk - yj) * (((i : ℚ) - (j : ℚ)) / ((k : ℚ) - (j : ℚ))))
        | _, _ => none :=
  getD_map_range _ h _

theorem interpolateTime_known {xs : List (Option ℚ)} {i : ℕ} {y : ℚ}
    (h : i < xs.length) (hx : xs.getD i none = some y) :
    (interpolateTime xs).getD i none = some y := by
  rw [interpolateTime_getD h, hx]

theorem interpolateTime_all_some {xs : List (Option ℚ)}
    (h0 : (xs.getD 0 none).isSome)
    (hl : (xs.getD (xs.length - 1) none).isSome)
    {i : ℕ} (hi : i < xs.length) :
    ((interpolateTime xs).getD i none).isSome := by
  rw [interpolateTime_getD hi]
  cases hx : xs.getD i none with
  | some y => simp
  | none =>
    have hi0 : i ≠ 0 := by
      rintro rfl; rw [hx] at h0; cases h0
    have hil : i ≠ xs.length - 1 := by
      rintro rfl; rw [hx] at hl; cases hl
    have hlb : (lastKnownBefore xs i).isSome :=
      lastKnownBefore_isSome ⟨0, by omega, h0⟩
    have hfk : (firstKnownFrom xs (i + 1)).isSome :=
      firstKnownFrom_isSome (k := xs.length - 1) (by omega) (by omega) hl
    obtain ⟨⟨j, yj⟩, hj⟩ := Option.isSome_iff_exists.mp hlb
    obtain ⟨⟨k, yk⟩, hk⟩ := Option.isSome_iff_exists.mp hfk
    rw [hj, hk]
    simp

/-! ### Supporting lemmas: the built series -/

theorem make_series_ok {table : List CleanRecord} {city : String}
    {s : DailySeries} (h : make_series table city = Except.ok s) :
    partOf table city ≠ [] ∧ (datesOf (partOf table city)).Nodup ∧
      s.start = listMin (datesOf (partOf table city)) ∧
      s.values = interpolateTime (asfreqD (partOf table city)) := by
  unfold make_series at h
  by_cases he : (partOf table city).isEmpty
  · rw [if_pos he] at h; cases h
  · rw [if_neg he] at h
    by_cases hd : (datesOf (partOf table city)).Nodup
    · rw [if_pos hd] at h
      refine ⟨by simpa using he, hd, ?_, ?_⟩
      · cases h; rfl
      · cases h; rfl
    · rw [if_neg hd] at h; cases h

theorem make_series_ok_of_valid {table : List CleanRecord} {city : String}
    (hne : partOf table city ≠ []) (hnd : (datesOf (partOf table city)).Nodup) :
    make_series table city =
      Except.ok ⟨listMin (datesOf (partOf table city)),
                 interpolateTime (asfreqD (partOf table city))⟩ := by
  unfold make_series
  rw [if_neg (by simpa using hne), if_pos hnd]

theorem built_values_length {table : List CleanRecord} {city : String}
    {s : DailySeries} (h : make_series table city = Except.ok s) :
    s.values.length =
      listMax (datesOf (partOf table city)) -
        listMin (datesOf (partOf table city)) + 1 := by
  obtain ⟨-, -, -, hv⟩ := make_series_ok h
  rw [hv, interpolateTime_length, asfreqD_length]

theorem built_all_some {table : List CleanRecord} {city : String}
    {s : DailySeries} (h : make_series table city = Except.ok s) :
    ∀ {i : ℕ}, i < s.values.length → ((s.values.getD i none).isSome) := by
  obtain ⟨hne, -, -, hv⟩ := make_series_ok h
  intro i hi
  rw [hv] at hi ⊢
  rw [interpolateTime_length] at hi
  exact interpolateTime_all_some (asfreqD_first_isSome hne)
    (asfreqD_last_isSome hne) hi

theorem built_values_pos {table : List CleanRecord} {city : String}
    {s : DailySeries} (h : make_series table city = Except.ok s) :
    0 < s.values.length := by
  rw [built_values_length h]; omega

theorem getD_of_length_le {xs : List (Option ℚ)} {i : ℕ}
    (h : xs.length ≤ i) : xs.getD i none = none := by
  rw [List.getD_eq_getElem?_getD, List.getElem?_eq_none h]
  rfl

theorem built_getAt_isSome_iff {table : List CleanRecord} {city : String}
    {s : DailySeries} (h : make_series table city = Except.ok s) (d : ℕ) :
    (getAt s d).isSome ↔
      s.start ≤ d ∧ d ≤ s.start + (s.values.length - 1) := by
  have hpos := built_values_pos h
  unfold getAt
  by_cases hs : s.start ≤ d
  · rw [if_pos hs]
    by_cases hr : d - s.start < s.values.length
    · rw [Option.isSome_iff_exists]
      constructor
      · intro _; constructor; exact hs; omega
      · intro _
        exact Option.isSome_iff_exists.mp (built_all_some h hr)
    · rw [getD_of_length_le (by omega)]
      constructor
      · intro hfalse; cases hfalse
      · intro ⟨_, hle⟩; omega
  · rw [if_neg hs]
    constructor
    · intro hfalse; cases hfalse
    · intro ⟨hle, _⟩; exact absurd hle hs

theorem built_lastKnownDate {table : List CleanRecord} {city : String}
    {s : DailySeries} (h : make_series table city = Except.ok s) :
    lastKnownDate s = some (s.start + (s.values.length - 1)) := by
  have hpos := built_values_pos h
  have hlast : (s.values.getD (s.values.length - 1) none).isSome :=
    built_all_some h (by omega)
  obtain ⟨y, hy⟩ := Option.isSome_iff_exists.mp hlast
  unfold lastKnownDate lastKnownIdx
  obtain ⟨m, hm⟩ : ∃ m, s.values.length = m + 1 :=
    ⟨s.values.length - 1, by omega⟩
  rw [hm]
  have hm1 : m = s.values.length - 1 := by omega
  rw [lastKnownBefore, hm1, hy]
  simp [hm1]

/-! ### Concrete inputs used by witnesses and counterexamples -/

/-- A small clean table: Astana observed on days 0 and 2 (gap on day 1),
Almaty observed on day 1. -/
def sampleTable : List CleanRecord :=
  [⟨0, "Astana", 0⟩, ⟨2, "Astana", 10⟩, ⟨1, "Almaty", 3⟩]

/-- A table with two Astana records on the same date. -/
def dupTable : List CleanRecord := [⟨0, "Astana", 1⟩, ⟨0, "Astana", 2⟩]

/-! ### Claim theorems -/

/-- C1: the comfort decision. In winter months {12,1,2} the strictly warmer
city wins and exact ties go to Almaty; in summer months {6,7,8} the
strictly cooler city wins and exact ties go to Almaty; in all other months
(shoulder) the city whose temperature is closer to the 20.0 °C target wins
and the `≤` comparison gives exact ties to Astana. -/
theorem season_decision_rule (m : ℕ) (t_ast t_alm : ℚ) :
    ((m = 12 ∨ m = 1 ∨ m = 2) →
      season_by_month m = "winter" ∧
      (t_alm < t_ast → decideWinner (season_by_month m) t_ast t_alm = "Astana") ∧
      (t_ast < t_alm → decideWinner (season_by_month m) t_ast t_alm = "Almaty") ∧
      (t_ast = t_alm → decideWinner (season_by_month m) t_ast t_alm = "Almaty")) ∧
    ((m = 6 ∨ m = 7 ∨ m = 8) →
      season_by_month m = "summer" ∧
      (t_ast < t_alm → decideWinner (season_by_month m) t_ast t_alm = "Astana") ∧
      (t_alm < t_ast → decideWinner (season_by_month m) t_ast t_alm = "Almaty") ∧
      (t_ast = t_alm → decideWinner (season_by_month m) t_ast t_alm = "Almaty")) ∧
    (¬(m = 12 ∨ m = 1 ∨ m = 2) → ¬(m = 6 ∨ m = 7 ∨ m = 8) →
      season_by_month m = "shoulder" ∧
      (abs (t_ast - targetTemp) < abs (t_alm - targetTemp) →
        decideWinner (season_by_month m) t_ast t_alm = "Astana") ∧
      (abs (t_alm - targetTemp) < abs (t_ast - targetTemp) →
        decideWinner (season_by_month m) t_ast t_alm = "Almaty") ∧
      (abs (t_ast - targetTemp) = abs (t_alm - targetTemp) →
        decideWinner (season_by_month m) t_ast t_alm = "Astana")) := by
  refine ⟨?_, ?_, ?_⟩
  · intro hm
    have hs : season_by_month m = "winter" := by
      rcases hm with rfl | rfl | rfl <;> rfl
    refine ⟨hs, fun ht => ?_, fun ht => ?_, fun ht => ?_⟩ <;>
      rw [hs, decideWinner, if_pos rfl]
    · rw [if_pos ht]
    · rw [if_neg (not_lt.mpr (le_of_lt ht))]
    · rw [if_neg (by rw [ht]; exact lt_irrefl t_alm)]
  · intro hm
    have hs : season_by_month m = "summer" := by
      rcases hm with rfl | rfl | rfl <;> rfl
    refine ⟨hs, fun ht => ?_, fun ht => ?_, fun ht => ?_⟩ <;>
      rw [hs, decideWinner, if_neg (by decide), if_pos rfl]
    · rw [if_pos ht]
    · rw [if_neg (not_lt.mpr (le_of_lt ht))]
    · rw [if_neg (by rw [ht]; exact lt_irrefl t_alm)]
  · intro h1 h2
    have hs : season_by_month m = "shoulder" := by
      rw [season_by_month, if_neg h1, if_neg h2]
    refine ⟨hs, fun ht => ?_, fun ht => ?_, fun ht => ?_⟩ <;>
      rw [hs, decideWinner, if_neg (by decide), if_neg (by decide)]
    · rw [if_pos (le_of_lt ht)]
    · rw [if_neg (not_le.mpr ht)]
    · rw [if_pos (le_of_eq ht)]

/-- C1 witness: a winter exact tie goes to Almaty, a summer exact tie goes
to Almaty, and in April 18 °C beats 23 °C for the 20 °C target. -/
theorem season_decision_rule_check :
    decideWinner (season_by_month 1) (5 : ℚ) 5 = "Almaty" ∧
    decideWinner (season_by_month 7) (3 : ℚ) 3 = "Almaty" ∧
    decideWinner (season_by_month 4) (18 : ℚ) 23 = "Astana" := by
  refine ⟨?_, ?_, ?_⟩
  · exact ((season_decision_rule 1 5 5).1 (Or.inr (Or.inl rfl))).2.2.2 rfl
  · exact ((season_decision_rule 7 3 3).2.1 (Or.inr (Or.inl rfl))).2.2.2 rfl
  · exact ((season_decision_rule 4 18 23).2.2 (by decide) (by decide)).2.1
      (by with_unfolding_all decide)

/-- C9: a requested city with zero clean records makes the series builder
fail with the fatal `dataAbsent` error that names the offending city, and
a city with at least one record never produces that error. -/
theorem data_absent_error (table : List CleanRecord) (city : String) :
    (partOf table city = [] →
      make_series table city = Except.error (BuildError.dataAbsent city)) ∧
    (partOf table city ≠ [] →
      ∀ c, make_series table city ≠ Except.error (BuildError.dataAbsent c)) := by
  constructor
  · intro he
    unfold make_series
    rw [if_pos (by simp [he])]
  · intro hne c
    unfold make_series
    rw [if_neg (by simpa using hne)]
    by_cases hd : (datesOf (partOf table city)).Nodup
    · rw [if_pos hd]; simp
    · rw [if_neg hd]; simp

/-- C9 witness: a table with only Almaty rows has no Astana data, so the
Astana series fails with `dataAbsent "Astana"`, while Almaty's does not. -/
theorem data_absent_error_check :
    make_series [⟨0, "Almaty", 1⟩] "Astana" =
      Except.error (BuildError.dataAbsent "Astana") ∧
    make_series [⟨0, "Almaty", 1⟩] "Almaty" ≠
      Except.error (BuildError.dataAbsent "Almaty") := by
  constructor
  · exact (data_absent_error [⟨0, "Almaty", 1⟩] "Astana").1
      (by with_unfolding_all decide)
  · exact (data_absent_error [⟨0, "Almaty", 1⟩] "Almaty").2
      (by with_unfolding_all decide) "Almaty"

/-- C7 counterexample: on a duplicate exact date the series builder fails
(the duplicate-label reindex error) instead of resolving the duplicate to a
single value and producing a series, refuting the claim as stated. -/
theorem duplicate_dates_cex :
    make_series dupTable "Astana" =
      Except.error (BuildError.duplicateDates "Astana") := by
  with_unfolding_all decide

/-- C7 amended: for every city whose records contain two entries with the
same exact date, the series builder fails deterministically with the
duplicate-label error naming the city; it performs no tie-break. -/
theorem duplicate_dates_fail (table : List CleanRecord) (city : String)
    (hne : partOf table city ≠ [])
    (hdup : ¬ (datesOf (partOf table city)).Nodup) :
    make_series table city =
      Except.error (BuildError.duplicateDates city) := by
  unfold make_series
  rw [if_neg (by simpa using hne), if_neg hdup]

/-- C7 witness: the amended behaviour on the concrete duplicate table. -/
theorem duplicate_dates_fail_check :
    make_series dupTable "Astana" =
      Except.error (BuildError.duplicateDates "Astana") :=
  duplicate_dates_fail dupTable "Astana" (by with_unfolding_all decide)
    (by with_unfolding_all decide)

/-- C8: no extrapolation — a built series assigns no value to any day
before the city's first observed date or after its last observed date, so
days outside the observed range stay unset. -/
theorem no_extrapolation (table : List CleanRecord) (city : String)
    (s : DailySeries) (d : ℕ) (h : make_series table city = Except.ok s)
    (hd : d < listMin (datesOf (partOf table city)) ∨
          listMax (datesOf (partOf table city)) < d) :
    getAt s d = none := by
  obtain ⟨hne, hnd, hstart, hv⟩ := make_series_ok h
  have hlen := built_values_length h
  have hmm := listMin_le_listMax (datesOf_ne_nil hne)
  unfold getAt
  rcases hd with hd | hd
  · rw [if_neg (by omega)]
  · by_cases hs : s.start ≤ d
    · rw [if_pos hs]
      exact getD_of_length_le (by omega)
    · rw [if_neg hs]

/-- C8 witness: Astana's observations in `sampleTable` span days 0..2, so
the built series has no entry for day 5. -/
theorem no_extrapolation_check :
    getAt ⟨0, [some 0, some 5, some 10]⟩ 5 = none :=
  no_extrapolation sampleTable "Astana" ⟨0, [some 0, some 5, some 10]⟩ 5
    (by with_unfolding_all decide) (Or.inr (by with_unfolding_all decide))

/-- C10: every entry of a built daily series is a known temperature — the
series is non-empty, has no unset entry anywhere, and its first and last
entries are exactly the observed values at the city's minimum and maximum
dates (interior gaps having been filled by interpolation). -/
theorem series_all_known (table : List CleanRecord) (city : String)
    (s : DailySeries) (h : make_series table city = Except.ok s) :
    0 < s.values.length ∧
    (∀ i, i < s.values.length → (s.values.getD i none).isSome) ∧
    s.values.getD 0 none =
      valueAtDate (partOf table city) (listMin (datesOf (partOf table city))) ∧
    s.values.getD (s.values.length - 1) none =
      valueAtDate (partOf table city) (listMax (datesOf (partOf table city))) := by
  obtain ⟨hne, hnd, hstart, hv⟩ := make_series_ok h
  have hmm := listMin_le_listMax (datesOf_ne_nil hne)
  have hnpos : 0 < (asfreqD (partOf table city)).length := by
    rw [asfreqD_length]; omega
  refine ⟨built_values_pos h, fun i hi => built_all_some h hi, ?_, ?_⟩
  · obtain ⟨y, hy⟩ :=
      Option.isSome_iff_exists.mp (asfreqD_first_isSome hne)
    rw [hv, interpolateTime_known hnpos hy, ← hy,
      asfreqD_getD (by omega), Nat.add_zero]
  · obtain ⟨y, hy⟩ :=
      Option.isSome_iff_exists.mp (asfreqD_last_isSome hne)
    have hlen : s.values.length = (asfreqD (partOf table city)).length := by
      rw [hv, interpolateTime_length]
    rw [hlen, hv, interpolateTime_known (by omega) hy, ← hy,
      asfreqD_length, asfreqD_getD (by omega)]
    congr 1
    omega

/-- C10 witness: the built Astana series of `sampleTable` is all-known with
observed endpoints. -/
theorem series_all_known_check :
    0 < (⟨0, [some 0, some 5, some 10]⟩ : DailySeries).values.length ∧
    (∀ i, i < (⟨0, [some 0, some 5, some 10]⟩ : DailySeries).values.length →
      ((⟨0, [some 0, some 5, some 10]⟩ : DailySeries).values.getD i none).isSome) ∧
    (⟨0, [some 0, some 5, some 10]⟩ : DailySeries).values.getD 0 none =
      valueAtDate (partOf sampleTable "Astana")
        (listMin (datesOf (partOf sampleTable "Astana"))) ∧
    (⟨0, [some 0, some 5, some 10]⟩ : DailySeries).values.getD
        ((⟨0, [some 0, some 5, some 10]⟩ : DailySeries).values.length - 1) none =
      valueAtDate (partOf sampleTable "Astana")
        (listMax (datesOf (partOf sampleTable "Astana"))) :=
  series_all_known sampleTable "Astana" ⟨0, [some 0, some 5, some 10]⟩
    (by with_unfolding_all decide)

/-- C3: for every city with at least one record (and pairwise-distinct
dates, duplicates being the failure of C7) the builder succeeds; the series
starts at the minimum observed date, its length equals the length of the
calendar range from minimum to maximum date, and it holds a value for
exactly the days of that range — one entry per calendar day, no gaps, and
no duplicate dates (the date of entry `i` is `start + i`, strictly
increasing by construction). -/
theorem series_daily_coverage (table : List CleanRecord) (city : String)
    (h1 : partOf table city ≠ [])
    (h2 : (datesOf (partOf table city)).Nodup) :
    ∃ s, make_series table city = Except.ok s ∧
      s.start = listMin (datesOf (partOf table city)) ∧
      s.values.length =
        listMax (datesOf (partOf table city)) -
          listMin (datesOf (partOf table city)) + 1 ∧
      ∀ d, (getAt s d).isSome ↔
        (listMin (datesOf (partOf table city)) ≤ d ∧
         d ≤ listMax (datesOf (partOf table city))) := by
  have hok := make_series_ok_of_valid h1 h2
  have hlen := built_values_length hok
  have hmm := listMin_le_listMax (datesOf_ne_nil h1)
  refine ⟨_, hok, rfl, hlen, ?_⟩
  intro d
  rw [built_getAt_isSome_iff hok d]
  dsimp only at hlen ⊢
  rw [hlen]
  constructor
  · intro ⟨ha, hb⟩
    exact ⟨ha, by omega⟩
  · intro ⟨ha, hb⟩
    exact ⟨ha, by omega⟩

/-- C3 witness: coverage of the built Astana series of `sampleTable`. -/
theorem series_daily_coverage_check :
    ∃ s, make_series sampleTable "Astana" = Except.ok s ∧
      s.start = listMin (datesOf (partOf sampleTable "Astana")) ∧
      s.values.length =
        listMax (datesOf (partOf sampleTable "Astana")) -
          listMin (datesOf (partOf sampleTable "Astana")) + 1 ∧
      ∀ d, (getAt s d).isSome ↔
        (listMin (datesOf (partOf sampleTable "Astana")) ≤ d ∧
         d ≤ listMax (datesOf (partOf sampleTable "Astana"))) :=
  series_daily_coverage sampleTable "Astana" (by with_unfolding_all decide)
    (by with_unfolding_all decide)

/-- C4: a day that carried no observation after the daily reindex, with a
known value on each side, receives the linear blend of the nearest known
values on each side, weighted by elapsed days (on the daily index of
`make_series` the index distance `i - j` is exactly the number of elapsed
days), and the filled value lies between those two bounding values. -/
theorem interpolation_time_weighted (table : List CleanRecord) (city : String)
    (s : DailySeries) (i j k : ℕ) (yj yk : ℚ)
    (h : make_series table city = Except.ok s)
    (hunset : (asfreqD (partOf table city)).getD i none = none)
    (hi : i < s.values.length)
    (hj : lastKnownBefore (asfreqD (partOf table city)) i = some (j, yj))
    (hk : firstKnownFrom (asfreqD (partOf table city)) (i + 1) = some (k, yk)) :
    s.values.getD i none =
      some (yj + (yk - yj) * (((i : ℚ) - (j : ℚ)) / ((k : ℚ) - (j : ℚ)))) ∧
    min yj yk ≤ yj + (yk - yj) * (((i : ℚ) - (j : ℚ)) / ((k : ℚ) - (j : ℚ))) ∧
    yj + (yk - yj) * (((i : ℚ) - (j : ℚ)) / ((k : ℚ) - (j : ℚ))) ≤ max yj yk := by
  obtain ⟨hne, hnd, hstart, hv⟩ := make_series_ok h
  have hilen : i < (asfreqD (partOf table city)).length := by
    rw [hv, interpolateTime_length] at hi; exact hi
  have hjs := lastKnownBefore_spec hj
  have hks := firstKnownFrom_spec hk
  have hji : j < i := hjs.1
  have hik : i < k := by omega
  have hjq : (j : ℚ) < (i : ℚ) := by exact_mod_cast hji
  have hkq : (i : ℚ) < (k : ℚ) := by exact_mod_cast hik
  have hden : (0 : ℚ) < (k : ℚ) - (j : ℚ) := by linarith
  have ht0 : 0 ≤ ((i : ℚ) - (j : ℚ)) / ((k : ℚ) - (j : ℚ)) :=
    div_nonneg (by linarith) (le_of_lt hden)
  have ht1 : ((i : ℚ) - (j : ℚ)) / ((k : ℚ) - (j : ℚ)) ≤ 1 := by
    rw [div_le_one hden]; linarith
  refine ⟨?_, ?_, ?_⟩
  · rw [hv, interpolateTime_getD hilen, hunset, hj, hk]
  · rcases le_total yj yk with hy | hy
    · rw [min_eq_left hy]
      nlinarith [mul_nonneg (sub_nonneg.mpr hy) ht0]
    · rw [min_eq_right hy]
      nlinarith [mul_nonneg (sub_nonneg.mpr hy) (sub_nonneg.mpr ht1)]
  · rcases le_total yj yk with hy | hy
    · rw [max_eq_right hy]
      nlinarith [mul_nonneg (sub_nonneg.mpr hy) (sub_nonneg.mpr ht1)]
    · rw [max_eq_left hy]
      nlinarith [mul_nonneg (sub_nonneg.mpr hy) ht0]

/-- C4 witness: in `sampleTable` Astana's day 1 is unset between day 0
(value 0) and day 2 (value 10); the fill is the time-weighted blend 5 and
lies between 0 and 10. -/
theorem interpolation_time_weighted_check :
    (⟨0, [some 0, some 5, some 10]⟩ : DailySeries).values.getD 1 none =
      some (0 + (10 - 0) *
        ((((1 : ℕ) : ℚ) - ((0 : ℕ) : ℚ)) / (((2 : ℕ) : ℚ) - ((0 : ℕ) : ℚ)))) ∧
    min (0 : ℚ) 10 ≤ 0 + (10 - 0) *
        ((((1 : ℕ) : ℚ) - ((0 : ℕ) : ℚ)) / (((2 : ℕ) : ℚ) - ((0 : ℕ) : ℚ))) ∧
    0 + (10 - 0) *
        ((((1 : ℕ) : ℚ) - ((0 : ℕ) : ℚ)) / (((2 : ℕ) : ℚ) - ((0 : ℕ) : ℚ))) ≤
      max (0 : ℚ) 10 :=
  interpolation_time_weighted sampleTable "Astana"
    ⟨0, [some 0, some 5, some 10]⟩ 1 0 2 0 10
    (by with_unfolding_all decide) (by with_unfolding_all decide)
    (by decide) (by with_unfolding_all decide) (by with_unfolding_all decide)

/-- A built series has a known value at some day `≤ d` (for `d` not past its
last day) exactly when it has a known value at `d` itself: built series are
gap-free from their first to their last day. -/
theorem built_known_upto {table : List CleanRecord} {city : String}
    {s : DailySeries} (h : make_series table city = Except.ok s) {d : ℕ}
    (hd : d ≤ s.start + (s.values.length - 1)) :
    (∃ d2, d2 ≤ d ∧ (getAt s d2).isSome) ↔ (getAt s d).isSome := by
  constructor
  · rintro ⟨d2, hd2, hs2⟩
    have h2 := (built_getAt_isSome_iff h d2).mp hs2
    exact (built_getAt_isSome_iff h d).mpr ⟨by omega, hd⟩
  · intro hyp
    exact ⟨d, le_refl d, hyp⟩

/-- Reduction of the evaluator once the comparison date is known. -/
theorem evaluateComfort_eq {monthOf : ℕ → ℕ} {sA sB : DailySeries} {d : ℕ}
    (hcd : comparisonDate sA sB = some d) :
    evaluateComfort monthOf sA sB =
      match getAt sA d, getAt sB d with
      | some ta, some tb =>
        Except.ok ⟨d, ta, tb, season_by_month (monthOf d),
                   decideWinner (season_by_month (monthOf d)) ta tb⟩
      | _, _ => Except.error AlignError.noCommonDate := by
  unfold evaluateComfort
  rw [hcd]

/-- C6: for every pair of built series the evaluator fixes the comparison
date (the earlier of the two last known dates) and fails with the alignment
error exactly when one of the series has no known value at or before that
date; otherwise no alignment error occurs. -/
theorem alignment_error_iff (monthOf : ℕ → ℕ) (table : List CleanRecord)
    (cityA cityB : String) (sA sB : DailySeries)
    (hA : make_series table cityA = Except.ok sA)
    (hB : make_series table cityB = Except.ok sB) :
    ∃ d, comparisonDate sA sB = some d ∧
      ((∃ e, evaluateComfort monthOf sA sB = Except.error e) ↔
        (¬ ∃ d2, d2 ≤ d ∧ (getAt sA d2).isSome) ∨
        (¬ ∃ d2, d2 ≤ d ∧ (getAt sB d2).isSome)) := by
  have hLA := built_lastKnownDate hA
  have hLB := built_lastKnownDate hB
  have hcd : comparisonDate sA sB =
      some (min (sA.start + (sA.values.length - 1))
                (sB.start + (sB.values.length - 1))) := by
    unfold comparisonDate
    rw [hLA, hLB]
  refine ⟨_, hcd, ?_⟩
  have hdA : min (sA.start + (sA.values.length - 1))
      (sB.start + (sB.values.length - 1)) ≤
      sA.start + (sA.values.length - 1) := min_le_left _ _
  have hdB : min (sA.start + (sA.values.length - 1))
      (sB.start + (sB.values.length - 1)) ≤
      sB.start + (sB.values.length - 1) := min_le_right _ _
  rw [built_known_upto hA hdA, built_known_upto hB hdB,
    evaluateComfort_eq hcd]
  cases hga : getAt sA (min (sA.start + (sA.values.length - 1))
      (sB.start + (sB.values.length - 1))) with
  | none =>
    simp [hga]
    exact ⟨AlignError.noCommonDate, trivial⟩
  | some ta =>
    cases hgb : getAt sB (min (sA.start + (sA.values.length - 1))
        (sB.start + (sB.values.length - 1))) with
    | none =>
      simp [hga, hgb]
      exact ⟨AlignError.noCommonDate, trivial⟩
    | some tb => simp [hga, hgb]

/-- C6 witness: on `sampleTable` the two built series overlap, the
comparison date is day 1 and no alignment error occurs. -/
theorem alignment_error_iff_check :
    ∃ d, comparisonDate ⟨0, [some 0, some 5, some 10]⟩ ⟨1, [some 3]⟩ = some d ∧
      ((∃ e, evaluateComfort (fun _ => 1) ⟨0, [some 0, some 5, some 10]⟩
          ⟨1, [some 3]⟩ = Except.error e) ↔
        (¬ ∃ d2, d2 ≤ d ∧ (getAt (⟨0, [some 0, some 5, some 10]⟩ : DailySeries) d2).isSome) ∨
        (¬ ∃ d2, d2 ≤ d ∧ (getAt (⟨1, [some 3]⟩ : DailySeries) d2).isSome)) :=
  alignment_error_iff (fun _ => 1) sampleTable "Astana" "Almaty"
    ⟨0, [some 0, some 5, some 10]⟩ ⟨1, [some 3]⟩
    (by with_unfolding_all decide) (by with_unfolding_all decide)

/-- A pair of built daily series whose date ranges are disjoint: Astana is
observed only on day 0, Almaty only on day 10. -/
def splitTable : List CleanRecord := [⟨0, "Astana", 1⟩, ⟨10, "Almaty", 2⟩]

/-- C2 counterexample: for the built series of `splitTable` the comparison
date is day 0 (the earlier of the two last known dates), but Almaty holds
no value at all on that date — the evaluator aborts instead of comparing —
refuting the claim that both cities always have an actual value there. -/
theorem comparison_date_value_cex :
    make_series splitTable "Astana" = Except.ok ⟨0, [some 1]⟩ ∧
    make_series splitTable "Almaty" = Except.ok ⟨10, [some 2]⟩ ∧
    comparisonDate ⟨0, [some 1]⟩ ⟨10, [some 2]⟩ = some 0 ∧
    getAt ⟨10, [some 2]⟩ 0 = none ∧
    evaluateComfort (fun _ => 1) ⟨0, [some 1]⟩ ⟨10, [some 2]⟩ =
      Except.error AlignError.noCommonDate := by
  with_unfolding_all decide

/-- C2 amended: the comparison date is always the earlier of the two
series' last known dates, and whenever the evaluator actually produces a
decision (no alignment abort) both cities hold a known value on that date
and exactly those values are the ones compared. -/
theorem comparison_date_aligned (monthOf : ℕ → ℕ) (sA sB : DailySeries)
    (dec : ComfortDecision)
    (h : evaluateComfort monthOf sA sB = Except.ok dec) :
    comparisonDate sA sB = some dec.evalDate ∧
    (∀ la lb, lastKnownDate sA = some la → lastKnownDate sB = some lb →
      dec.evalDate = min la lb) ∧
    getAt sA dec.evalDate = some dec.t_ast ∧
    getAt sB dec.evalDate = some dec.t_alm := by
  cases hcd : comparisonDate sA sB with
  | none =>
    unfold evaluateComfort at h
    rw [hcd] at h
    cases h
  | some d =>
    rw [evaluateComfort_eq hcd] at h
    cases hga : getAt sA d with
    | none => rw [hga] at h; cases h
    | some ta =>
      cases hgb : getAt sB d with
      | none => rw [hga, hgb] at h; cases h
      | some tb =>
        rw [hga, hgb] at h
        injection h with h2
        subst h2
        refine ⟨rfl, ?_, hga, hgb⟩
        intro la lb hla hlb
        unfold comparisonDate at hcd
        rw [hla, hlb] at hcd
        injection hcd with h3
        exact h3.symm

/-- C2 witness: on `sampleTable` the evaluator succeeds; the comparison
date is day 1 = min(2, 1) and the compared values are the series' values
at day 1 (5 for Astana — itself an interpolated entry — and 3 for
Almaty). -/
theorem comparison_date_aligned_check :
    comparisonDate ⟨0, [some 0, some 5, some 10]⟩ ⟨1, [some 3]⟩ =
      some (ComfortDecision.evalDate ⟨1, 5, 3, "winter", "Astana"⟩) ∧
    (∀ la lb,
      lastKnownDate ⟨0, [some 0, some 5, some 10]⟩ = some la →
      lastKnownDate ⟨1, [some 3]⟩ = some lb →
      ComfortDecision.evalDate ⟨1, 5, 3, "winter", "Astana"⟩ = min la lb) ∧
    getAt ⟨0, [some 0, some 5, some 10]⟩
        (ComfortDecision.evalDate ⟨1, 5, 3, "winter", "Astana"⟩) =
      some (ComfortDecision.t_ast ⟨1, 5, 3, "winter", "Astana"⟩) ∧
    getAt ⟨1, [some 3]⟩
        (ComfortDecision.evalDate ⟨1, 5, 3, "winter", "Astana"⟩) =
      some (ComfortDecision.t_alm ⟨1, 5, 3, "winter", "Astana"⟩) :=
  comparison_date_aligned (fun _ => 1) ⟨0, [some 0, some 5, some 10]⟩
    ⟨1, [some 3]⟩ ⟨1, 5, 3, "winter", "Astana"⟩ (by with_unfolding_all decide)

/-- A raw row whose date cell is the (case-sensitive!) unlisted casing
"NAN" of the nan token. -/
def nanRows : List RawRow := [⟨some "NAN", "Astana", "1.0"⟩]

/-- C5 counterexample: the string "NAN" is a case variant of "nan" (its
lowercase image is "nan") yet it is not in `bad_tokens`, so the row is not
rejected by the sentinel filter; it reaches date parsing and surfaces in
the unparseable-date diagnostic listing — the sentinel check is not
case-insensitive as claimed. -/
theorem sentinel_nan_case_cex :
    pyStrip "NAN" = "NAN" ∧
    "NAN".data.map Char.toLower = "nan".data ∧
    ("NAN" ∈ bad_tokens → False) ∧
    badDateDiagnostics simpleDateParse nanRows = ["NAN"] := by
  with_unfolding_all decide

/-- C5 amended: rows whose stripped date cell is absent or equals one of
the exact sentinel strings "", "...", "—", "-", "NaN", "nan" are rejected
before date parsing (nothing sentinel ever reaches the parser), sentinel
strings never appear in the unparseable-date diagnostics, and the
diagnostics surface at most 10 entries; other casings of "nan" (such as
"NAN") are not sentinels. The normaliser is total: it never aborts. -/
theorem sentinel_rejection_before_parse (parseDate : String → Option ℕ)
    (rows : List RawRow) :
    (∀ r, r ∈ afterSentinel rows → ∃ d, r.date = some d ∧ d ∉ bad_tokens) ∧
    (∀ t, t ∈ badDateDiagnostics parseDate rows → t ∉ bad_tokens) ∧
    (badDateDiagnostics parseDate rows).length ≤ 10 := by
  have hmain : ∀ r, r ∈ afterSentinel rows →
      ∃ d, r.date = some d ∧ d ∉ bad_tokens := by
    intro r hr
    unfold afterSentinel at hr
    have hkeep := (List.mem_filter.mp hr).2
    cases hd : r.date with
    | none => rw [hd] at hkeep; simp [sentinelBad] at hkeep
    | some d =>
      refine ⟨d, rfl, ?_⟩
      rw [hd] at hkeep
      simp [sentinelBad] at hkeep
      exact hkeep
  refine ⟨hmain, ?_, ?_⟩
  · intro t ht
    unfold badDateDiagnostics at ht
    have ht2 := List.mem_of_mem_take ht
    rcases List.mem_map.mp ht2 with ⟨r, hr, hrt⟩
    obtain ⟨d, hd, hdn⟩ := hmain r (List.mem_filter.mp hr).1
    rw [← hrt, hd]
    simpa using hdn
  · unfold badDateDiagnostics
    exact List.length_take_le _ _

/-- Rows driving the C5 witness: one em-dash sentinel row and one
unparseable non-sentinel row. -/
def sentinelRows : List RawRow :=
  [⟨some "—", "Astana", "1.0"⟩, ⟨some "zzz", "Almaty", "2"⟩]

/-- C5 witness: the em-dash sentinel never shows up in the diagnostics of
the concrete rows, and the listing stays within 10 entries. -/
theorem sentinel_rejection_before_parse_check :
    "—" ∉ badDateDiagnostics simpleDateParse sentinelRows ∧
    (badDateDiagnostics simpleDateParse sentinelRows).length ≤ 10 := by
  refine ⟨fun hmem => ?_,
    (sentinel_rejection_before_parse simpleDateParse sentinelRows).2.2⟩
  exact (sentinel_rejection_before_parse simpleDateParse sentinelRows).2.1
    "—" hmem (by decide)
